import Mathlib

/-!
Shallow embedding of the RLWE encryptor of this repository (the `rlwe` package,
file `src/unnamed/part_001`), of the LWE-extraction layer exercised by the tests
of the `lwe` package (`src/unnamed/part_000`), and of the CKKS bootstrapping
parameter copy (`src/ckks/bootstrap_params.go`).

Modelling conventions, fixed once here:

* A residue-number-system polynomial (`ring.Poly`) is an `RPoly`: a function
  from limb index to the list of its `n` coefficients, together with the number
  of allocated limbs (`len(pol.Coeffs)`), the `IsNTT` metadata flag that the
  source manages by hand, and a bookkeeping field `dom` recording in which
  representation (NTT or coefficient) the data currently is.  The ring
  arithmetic provider (package `ring`) is external to this repository and is
  consumed as a fixed capability set; the NTT is a linear bijection on ring
  elements, so the embedding stores every polynomial by the ring element it
  denotes and lets `NTTLvl`/`InvNTTLvl` act on the `dom` tag only.  Likewise
  the Montgomery representation (`MForm`, `MulCoeffsMontgomery`) is internal
  to the provider: `MFormLvl` is representation-neutral here and
  `MulCoeffsMontgomeryLvl` denotes the negacyclic ring product, which is its
  net effect on the values the operands denote (the stored keys carry the
  Montgomery factor exactly so that this holds).
* Samplers are external cryptographic primitives.  The embedding passes the
  entropy in explicitly: a uniform sample is one fresh residue list per limb,
  a Gaussian or ternary sample is one small integer coefficient vector that
  `ReadLvl` reduces modulo each limb modulus.  By the source's convention a
  uniform sample is data in the NTT representation (`dom := true`), while
  Gaussian and ternary samples are small-norm coefficient-domain data
  (`dom := false`).
* Go panics are modelled as `Except.error` values; the error constructors
  follow the spec's error taxonomy.
* Go slices are lists; `copy`/truncation semantics are modelled exactly.
-/

namespace Rlwe

/-- Coefficientwise addition modulo `q`, the effect of `ring.AddLvl` on one
residue limb. -/
def addCoeffs (q : Int) (a b : List Int) : List Int :=
  List.zipWith (fun x y => (x + y) % q) a b

/-- Coefficientwise subtraction modulo `q`. -/
def subCoeffs (q : Int) (a b : List Int) : List Int :=
  List.zipWith (fun x y => (x - y) % q) a b

/-- Coefficientwise negation modulo `q`, the effect of `ring.NegLvl` on one
residue limb. -/
def negCoeffs (q : Int) (a : List Int) : List Int :=
  a.map (fun x => (-x) % q)

/-- Coefficientwise reduction modulo `q` (storing a sampled raw vector into a
residue limb). -/
def redCoeffs (q : Int) (a : List Int) : List Int :=
  a.map (fun x => x % q)

/-- Coefficient `i` of the negacyclic (modulo `X^n + 1`) product of the
coefficient vectors `a` and `b`, modulo `q`: contributions with `j + k = i`
count positively, contributions wrapping past `n` count negatively. -/
def negacyclicMulCoeff (q : Int) (n : Nat) (a b : List Int) (i : Nat) : Int :=
  (((List.range n).map fun j =>
    if j ≤ i then a.getD (i - j) 0 * b.getD j 0
    else -(a.getD (n + i - j) 0 * b.getD j 0)).sum) % q

/-- Negacyclic product of two residue limbs modulo `q`; the net effect of
`ring.MulCoeffsMontgomeryLvl` on the ring elements the limbs denote. -/
def negacyclicMul (q : Int) (n : Nat) (a b : List Int) : List Int :=
  (List.range n).map (negacyclicMulCoeff q n a b)

/-- Centered representative in `(-q/2, q/2]` of a residue modulo `q`. -/
def centerMod (q x : Int) : Int :=
  let r := x % q
  if 2 * r > q then r - q else r

/-- Product of a list of moduli. -/
def prodList (ps : List Int) : Int := ps.foldl (· * ·) 1

/-- Modular inverse of `a` modulo `m` via the extended Euclidean algorithm
(meaningful when `a` and `m` are coprime, which holds for the coprime RNS
moduli the source operates over). -/
def modInv (a m : Int) : Int := (Int.gcdA (a % m) m) % m

/-- Operating parameters, the slice of `rlwe.Parameters` (external to src/)
that the embedded code reads: ring degree `n`, modulus chain `qs`, optional
auxiliary chain `ps`, and the gadget decomposition configuration. -/
structure Params where
  n : Nat
  qs : List Int
  ps : List Int
  logBase2 : Nat
  decompDigits : Nat

/-- An RNS polynomial (`ring.Poly`): limb `i` holds the coefficients modulo
`qs[i]`; `count` is `len(pol.Coeffs)`; `isNTT` is the hand-managed metadata
flag; `dom` records the representation the data is actually in (model
bookkeeping, see the header). -/
structure RPoly where
  coeff : Nat → List Int
  count : Nat
  isNTT : Bool
  dom : Bool

/-- The level of an RNS polynomial: `len(pol.Coeffs) - 1`. -/
def RPoly.level (a : RPoly) : Nat := a.count - 1

/-- The allocated limbs of an RNS polynomial as a concrete list (used to state
and evaluate properties of results). -/
def RPoly.limbsList (a : RPoly) : List (List Int) :=
  (List.range a.count).map a.coeff

/-- A freshly allocated zero polynomial with `c` limbs of `n` coefficients
(`ring.NewPoly`). -/
def zeroRPoly (c n : Nat) : RPoly :=
  { coeff := fun _ => List.replicate n 0, count := c, isNTT := false, dom := false }

/-- `TernarySampler.ReadLvl`: overwrite limbs `0..lvl` with the small ternary
vector `raw` reduced per limb modulus; ternary samples are coefficient-domain
data. -/
def ternaryReadLvl (qs : List Int) (lvl : Nat) (raw : List Int) (dst : RPoly) : RPoly :=
  { dst with
    coeff := fun i => if i ≤ lvl then redCoeffs (qs.getD i 1) raw else dst.coeff i
    dom := false }

/-- `GaussianSampler.ReadLvl`: same limb-wise write as the ternary sampler,
with a Gaussian raw vector. -/
def gaussReadLvl (qs : List Int) (lvl : Nat) (raw : List Int) (dst : RPoly) : RPoly :=
  { dst with
    coeff := fun i => if i ≤ lvl then redCoeffs (qs.getD i 1) raw else dst.coeff i
    dom := false }

/-- `GaussianSampler.ReadAndAddLvl`: add the reduced Gaussian vector onto limbs
`0..lvl` of `dst`. -/
def gaussReadAddLvl (qs : List Int) (lvl : Nat) (raw : List Int) (dst : RPoly) : RPoly :=
  { dst with
    coeff := fun i =>
      if i ≤ lvl then addCoeffs (qs.getD i 1) (dst.coeff i) (redCoeffs (qs.getD i 1) raw)
      else dst.coeff i }

/-- `UniformSampler.ReadLvl`: overwrite limbs `0..lvl` with one independent
residue list per limb (CRT-uniform); by the source's convention uniform samples
are NTT-representation data. -/
def uniformReadLvl (qs : List Int) (lvl : Nat) (raw : Nat → List Int) (dst : RPoly) : RPoly :=
  { dst with
    coeff := fun i => if i ≤ lvl then redCoeffs (qs.getD i 1) (raw i) else dst.coeff i
    dom := true }

/-- `ringQP.ExtendBasisSmallNormAndCenter(srcQ, lvlP, nil, dstP)`: lift a
small-norm polynomial, read off centered from its first Q-limb (modulus `q0`),
to residues modulo each auxiliary modulus `ps[j]`, `j ≤ lvlP`. -/
def extendBasisLvl (q0 : Int) (ps : List Int) (lvlP : Nat) (srcQ : RPoly) (dstP : RPoly) :
    RPoly :=
  { dstP with
    coeff := fun j =>
      if j ≤ lvlP then (srcQ.coeff 0).map (fun x => centerMod q0 x % ps.getD j 1)
      else dstP.coeff j
    dom := srcQ.dom }

/-- `ring.NTTLvl` in the value-level model: the data moves to the NTT
representation, the denoted ring element is unchanged. -/
def nttLvlR (dst : RPoly) : RPoly := { dst with dom := true }

/-- `ring.InvNTTLvl` in the value-level model: the data moves back to the
coefficient representation. -/
def invNttLvlR (dst : RPoly) : RPoly := { dst with dom := false }

/-- `ring.MFormLvl`: Montgomery form is internal to the external ring provider
and representation-neutral in this model. -/
def mformLvlR (dst : RPoly) : RPoly := dst

/-- `ring.AddLvl(lvl, a, b, a)` (every call site of the embedded code writes
the sum back onto its first operand): add limb-wise up to `lvl`. -/
def addLvlR (qs : List Int) (lvl : Nat) (a b : RPoly) : RPoly :=
  { a with
    coeff := fun i =>
      if i ≤ lvl then addCoeffs (qs.getD i 1) (a.coeff i) (b.coeff i) else a.coeff i }

/-- `ring.NegLvl(lvl, a, a)`: negate limb-wise up to `lvl`. -/
def negLvlR (qs : List Int) (lvl : Nat) (a : RPoly) : RPoly :=
  { a with
    coeff := fun i => if i ≤ lvl then negCoeffs (qs.getD i 1) (a.coeff i) else a.coeff i }

/-- `ring.MulCoeffsMontgomeryLvl(lvl, a, b, dst)`: write the negacyclic product
of `a` and `b` onto limbs `0..lvl` of `dst`; the result is data in the same
representation as `a` (the code only multiplies NTT-form operands). -/
def mulMontLvlR (qs : List Int) (n lvl : Nat) (a b dst : RPoly) : RPoly :=
  { dst with
    coeff := fun i =>
      if i ≤ lvl then negacyclicMul (qs.getD i 1) n (a.coeff i) (b.coeff i) else dst.coeff i
    dom := a.dom }

/-- `ring.MulCoeffsMontgomeryAndSubLvl(lvl, a, b, dst)`: subtract the
negacyclic product of `a` and `b` from limbs `0..lvl` of `dst`. -/
def mulMontSubLvlR (qs : List Int) (n lvl : Nat) (a b dst : RPoly) : RPoly :=
  { dst with
    coeff := fun i =>
      if i ≤ lvl then
        subCoeffs (qs.getD i 1) (dst.coeff i) (negacyclicMul (qs.getD i 1) n (a.coeff i) (b.coeff i))
      else dst.coeff i }

/-- The slice truncation `pol.Coeffs = pol.Coeffs[:lvl+1]` closing every
encryption path. -/
def truncR (lvl : Nat) (a : RPoly) : RPoly := { a with count := lvl + 1 }

/-- The flag assignment `ciphertext.Value[1].IsNTT = ciphertext.Value[0].IsNTT`
closing every encryption path. -/
def setFlag (b : Bool) (a : RPoly) : RPoly := { a with isNTT := b }

/-- Centered CRT reconstruction, coefficient by coefficient, of the value a
P-part polynomial denotes modulo the product of `ps`. -/
def crtCenterList (ps : List Int) (limb : Nat → List Int) (n : Nat) : List Int :=
  let pbig := prodList ps
  (List.range n).map fun k =>
    let v := (((List.range ps.length).map fun j =>
      let pj := ps.getD j 1
      let mj := pbig / pj
      (limb j).getD k 0 * mj * modInv mj pj).sum) % pbig
    centerMod pbig v

/-- `BasisExtender.ModDownQPtoQ(lvlQ, lvlP, aQ, aP, aQ)`: divide out the
auxiliary modulus, writing `(aQ - c) * P⁻¹ mod q_i` onto limbs `0..lvlQ` where
`c` is the centered CRT reconstruction of the P-part. -/
def modDownR (qs ps : List Int) (n lvlQ lvlP : Nat) (aQ aP : RPoly) : RPoly :=
  let psl := ps.take (lvlP + 1)
  let pbig := prodList psl
  let c := crtCenterList psl aP.coeff n
  { aQ with
    coeff := fun i =>
      if i ≤ lvlQ then
        let qi := qs.getD i 1
        List.zipWith (fun x y => ((x - y) * modInv (pbig % qi) qi) % qi) (aQ.coeff i) c
      else aQ.coeff i }

/-- A `ringqp.Poly`: a Q-part and a P-part. -/
structure QPPoly where
  q : RPoly
  p : RPoly

/-- `ringQP.NTTLvl` on a QP pair. -/
def nttLvlQP (a : QPPoly) : QPPoly := ⟨nttLvlR a.q, nttLvlR a.p⟩

/-- `ringQP.InvNTTLvl` on a QP pair. -/
def invNttLvlQP (a : QPPoly) : QPPoly := ⟨invNttLvlR a.q, invNttLvlR a.p⟩

/-- `ringQP.MFormLvl` on a QP pair. -/
def mformLvlQP (a : QPPoly) : QPPoly := ⟨mformLvlR a.q, mformLvlR a.p⟩

/-- `ringQP.AddLvl` on a QP pair. -/
def addLvlQP (qs ps : List Int) (lvlQ lvlP : Nat) (a b : QPPoly) : QPPoly :=
  ⟨addLvlR qs lvlQ a.q b.q, addLvlR ps lvlP a.p b.p⟩

/-- `ringQP.MulCoeffsMontgomeryLvl` on a QP pair. -/
def mulMontLvlQP (qs ps : List Int) (n lvlQ lvlP : Nat) (a b dst : QPPoly) : QPPoly :=
  ⟨mulMontLvlR qs n lvlQ a.q b.q dst.q, mulMontLvlR ps n lvlP a.p b.p dst.p⟩

/-- `ringQP.MulCoeffsMontgomeryAndSubLvl` on a QP pair. -/
def mulMontSubLvlQP (qs ps : List Int) (n lvlQ lvlP : Nat) (a b dst : QPPoly) : QPPoly :=
  ⟨mulMontSubLvlR qs n lvlQ a.q b.q dst.q, mulMontSubLvlR ps n lvlP a.p b.p dst.p⟩

/-- An RLWE plaintext: one ring element. -/
structure Plaintext where
  value : RPoly

/-- `Plaintext.Level()`. -/
def Plaintext.level (p : Plaintext) : Nat := p.value.count - 1

/-- An RLWE ciphertext: body `c0` (`Value[0]`) and mask `c1` (`Value[1]`). -/
structure Ciphertext where
  c0 : RPoly
  c1 : RPoly

/-- `Ciphertext.Level()`: the level of `Value[0]`. -/
def Ciphertext.level (c : Ciphertext) : Nat := c.c0.count - 1

/-- An RLWE public key: a pair of QP ring elements. -/
structure PublicKey where
  p0 : QPPoly
  p1 : QPPoly

/-- An RLWE secret key: one QP ring element (stored by the provider in
NTT/Montgomery form; this model stores the denoted element with `dom = true`).
-/
structure SecretKey where
  value : QPPoly

/-- The operations an encryption call performs, in the order it performs them
(one event per provider call of the embedded source lines). -/
inductive Event
  | sampleUniform
  | sampleTernary
  | sampleGaussian
  | extendBasis
  | nttOp
  | invNttOp
  | mformOp
  | mulPk
  | addNoise
  | modDownP
  | addPlain
  deriving Repr, DecidableEq, BEq

/-- The error taxonomy of the spec for the panics of the embedded code. -/
inductive EncErr
  | unsupportedInput
  | parameterMismatch
  | nilPlaintextDeref
  deriving Repr, DecidableEq, BEq

/-- An RGSW (gadget) ciphertext: two gadget matrices of RLWE pairs over the
extended ring, with its operating levels and whether its entries carry a
P-part (`ct[0].P != nil`). -/
structure RgswCiphertext where
  levelQ : Nat
  levelP : Nat
  hasP : Bool
  m0 : Nat → Nat → QPPoly × QPPoly
  m1 : Nat → Nat → QPPoly × QPPoly

/-- The `ct interface{}` argument of `Encrypt`: either an RLWE or an RGSW
ciphertext target. -/
inductive EncTarget
  | rlweCt (ct : Ciphertext)
  | rgswCt (g : RgswCiphertext)

/-- The result written by `skEncryptor.Encrypt`, matching the target kind. -/
inductive SkOut
  | rlweOut (ct : Ciphertext)
  | rgswOut (g : RgswCiphertext)

/-- The entropy consumed by one public-key `Encrypt` call: the uniform mask
stream (one residue list per limb), the ternary draw for `u`, and the Gaussian
draws in the order the call makes them. -/
structure PkSamples where
  mask : Nat → List Int
  tern : List Int
  gauss : Nat → List Int

/-- The entropy consumed by one RGSW encryption, indexed by gadget-matrix
entry `(i, j)` and component `k`; `uq`/`up` additionally by limb. -/
structure RgswSamples where
  g : Nat → Nat → Nat → List Int
  g2 : Nat → Nat → Nat → List Int
  uq : Nat → Nat → Nat → Nat → List Int
  up : Nat → Nat → Nat → Nat → List Int

/-- The entropy consumed by one secret-key `Encrypt` call. -/
structure SkSamples where
  mask : Nat → List Int
  gauss : Nat → List Int
  rg : RgswSamples

/-- `pkEncryptor.encryptRLWE` (src/unnamed/part_001, lines 180-274, the
auxiliary-modulus path, with `levelP := 0` as in the source), returning the
resulting ciphertext together with the ordered list of provider operations
performed.  The function dereferences `plaintext` for `levelQ` before any
`plaintext != nil` test, so this embedding receives a non-nil plaintext and
takes those tests in their non-nil branch (see claim C4). -/
def pkEncryptRLWECore (pr : Params) (pk : PublicKey) (p : Plaintext) (ct : Ciphertext)
    (tern : List Int) (gauss : Nat → List Int) : Ciphertext × List Event :=
  let lvlQ := min p.level ct.level
  let lvlP := 0
  let q0 := pr.qs.getD 0 1
  let ctNTT := ct.c0.isNTT
  let uQ := ternaryReadLvl pr.qs lvlQ tern (zeroRPoly pr.qs.length pr.n)
  let uP := extendBasisLvl q0 pr.ps lvlP uQ (zeroRPoly pr.ps.length pr.n)
  let u := mformLvlQP (nttLvlQP ⟨uQ, uP⟩)
  let ct0QP := mulMontLvlQP pr.qs pr.ps pr.n lvlQ lvlP u pk.p0
    ⟨ct.c0, zeroRPoly pr.ps.length pr.n⟩
  let ct1QP := mulMontLvlQP pr.qs pr.ps pr.n lvlQ lvlP u pk.p1
    ⟨ct.c1, zeroRPoly pr.ps.length pr.n⟩
  let ct0QP := invNttLvlQP ct0QP
  let ct1QP := invNttLvlQP ct1QP
  let e0Q := gaussReadLvl pr.qs lvlQ (gauss 0) uQ
  let e0P := extendBasisLvl q0 pr.ps lvlP e0Q uP
  let ct0QP := addLvlQP pr.qs pr.ps lvlQ lvlP ct0QP ⟨e0Q, e0P⟩
  let e1Q := gaussReadLvl pr.qs lvlQ (gauss 1) e0Q
  let e1P := extendBasisLvl q0 pr.ps lvlP e1Q e0P
  let ct1QP := addLvlQP pr.qs pr.ps lvlQ lvlP ct1QP ⟨e1Q, e1P⟩
  let c0 := modDownR pr.qs pr.ps pr.n lvlQ lvlP ct0QP.q ct0QP.p
  let c1 := modDownR pr.qs pr.ps pr.n lvlQ lvlP ct1QP.q ct1QP.p
  let front : List Event :=
    [.sampleTernary, .extendBasis, .nttOp, .mformOp, .mulPk, .mulPk, .invNttOp, .invNttOp,
     .sampleGaussian, .extendBasis, .addNoise, .sampleGaussian, .extendBasis, .addNoise,
     .modDownP, .modDownP]
  let fin := fun (b0 b1 : RPoly) (tail : List Event) =>
    (Ciphertext.mk (truncR lvlQ b0) (truncR lvlQ (setFlag b0.isNTT b1)), front ++ tail)
  if ctNTT then
    if p.value.isNTT then
      let c0 := nttLvlR c0
      let c1 := nttLvlR c1
      let c0 := addLvlR pr.qs lvlQ c0 p.value
      fin c0 c1 [.nttOp, .nttOp, .addPlain]
    else
      let c0 := addLvlR pr.qs lvlQ c0 p.value
      let c0 := nttLvlR c0
      let c1 := nttLvlR c1
      fin c0 c1 [.addPlain, .nttOp, .nttOp]
  else
    if p.value.isNTT then
      let buff := invNttLvlR p.value
      fin (addLvlR pr.qs lvlQ c0 buff) c1 [.invNttOp, .addPlain]
    else
      fin (addLvlR pr.qs lvlQ c0 p.value) c1 [.addPlain]

/-- `pkEncryptor.encryptNoPRLWE` (lines 276-359, no auxiliary modulus), with
the same conventions as `pkEncryptRLWECore`. -/
def pkEncryptNoPCore (pr : Params) (pk : PublicKey) (p : Plaintext) (ct : Ciphertext)
    (tern : List Int) (gauss : Nat → List Int) : Ciphertext × List Event :=
  let lvlQ := min p.level ct.level
  let ctNTT := ct.c0.isNTT
  let buff := ternaryReadLvl pr.qs lvlQ tern (zeroRPoly pr.qs.length pr.n)
  let buff := mformLvlR (nttLvlR buff)
  let c0 := mulMontLvlR pr.qs pr.n lvlQ buff pk.p0.q ct.c0
  let c1 := mulMontLvlR pr.qs pr.n lvlQ buff pk.p1.q ct.c1
  let front : List Event := [.sampleTernary, .nttOp, .mformOp, .mulPk, .mulPk]
  let fin := fun (b0 b1 : RPoly) (tail : List Event) =>
    (Ciphertext.mk (truncR lvlQ b0) (truncR lvlQ (setFlag b0.isNTT b1)), front ++ tail)
  if ctNTT then
    let e := nttLvlR (gaussReadLvl pr.qs lvlQ (gauss 0) buff)
    let c1 := addLvlR pr.qs lvlQ c1 e
    let pool := gaussReadLvl pr.qs lvlQ (gauss 1) e
    if p.value.isNTT then
      let pool := nttLvlR pool
      let c0 := addLvlR pr.qs lvlQ c0 pool
      let c0 := addLvlR pr.qs lvlQ c0 p.value
      fin c0 c1
        [.sampleGaussian, .nttOp, .addNoise, .sampleGaussian, .nttOp, .addNoise, .addPlain]
    else
      let pool := addLvlR pr.qs lvlQ pool p.value
      let pool := nttLvlR pool
      let c0 := addLvlR pr.qs lvlQ c0 pool
      fin c0 c1
        [.sampleGaussian, .nttOp, .addNoise, .sampleGaussian, .addPlain, .nttOp, .addNoise]
  else
    let c0 := invNttLvlR c0
    let c1 := invNttLvlR c1
    let c0 := gaussReadAddLvl pr.qs ct.level (gauss 0) c0
    let c1 := gaussReadAddLvl pr.qs ct.level (gauss 1) c1
    if p.value.isNTT then
      let buff2 := invNttLvlR p.value
      fin (addLvlR pr.qs lvlQ c0 buff2) c1
        [.invNttOp, .invNttOp, .sampleGaussian, .addNoise, .sampleGaussian, .addNoise,
         .invNttOp, .addPlain]
    else
      fin (addLvlR pr.qs lvlQ c0 p.value) c1
        [.invNttOp, .invNttOp, .sampleGaussian, .addNoise, .sampleGaussian, .addNoise,
         .addPlain]

/-- `skEncryptor.encryptRLWE` (lines 361-420), body of the secret-key path:
`ct0 = -(ct1·sk) + e (+ pt)`, with the `plaintext != nil` guards taken in the
non-nil branch because the entry has already dereferenced the plaintext. -/
def skEncryptRLWECore (pr : Params) (sk : SecretKey) (p : Plaintext) (ct : Ciphertext)
    (gauss : Nat → List Int) : Ciphertext :=
  let lvlQ := min p.level ct.level
  let ctNTT := ct.c0.isNTT
  let c0 := mulMontLvlR pr.qs pr.n lvlQ ct.c1 sk.value.q ct.c0
  let c0 := negLvlR pr.qs lvlQ c0
  let fin := fun (b0 b1 : RPoly) =>
    Ciphertext.mk (truncR lvlQ b0) (truncR lvlQ (setFlag b0.isNTT b1))
  if ctNTT then
    let pool := gaussReadLvl pr.qs lvlQ (gauss 0) (zeroRPoly pr.qs.length pr.n)
    if p.value.isNTT then
      let pool := nttLvlR pool
      let c0 := addLvlR pr.qs lvlQ c0 pool
      let c0 := addLvlR pr.qs lvlQ c0 p.value
      fin c0 ct.c1
    else
      let pool := addLvlR pr.qs lvlQ pool p.value
      let pool := nttLvlR pool
      let c0 := addLvlR pr.qs lvlQ c0 pool
      fin c0 ct.c1
  else
    let c0 :=
      if p.value.isNTT then invNttLvlR (addLvlR pr.qs lvlQ c0 p.value)
      else addLvlR pr.qs lvlQ (invNttLvlR c0) p.value
    let c0 := gaussReadAddLvl pr.qs ct.level (gauss 0) c0
    let c1 := invNttLvlR ct.c1
    fin c0 c1

/-- The entry of `skEncryptor.encryptRLWE`: `plaintext.Level()` is evaluated
before anything else, so a nil plaintext panics here. -/
def skEncryptRLWE (pr : Params) (sk : SecretKey) (pt : Option Plaintext) (ct : Ciphertext)
    (gauss : Nat → List Int) : Except EncErr Ciphertext :=
  match pt with
  | none => .error .nilPlaintextDeref
  | some p => .ok (skEncryptRLWECore pr sk p ct gauss)

/-- Modelled from the spec: `Parameters.DecompRNS` is not under src/.  The
gadget matrix has one row per group of `levelP+1` Q-limbs (§3: an RGSW
ciphertext is a matrix of size decompRNS × decompDigits). -/
def Params.decompRNS (pr : Params) (lvlQ lvlP : Nat) : Nat :=
  (lvlQ + lvlP + 1) / (lvlP + 1)

/-- Modelled from the spec: `Parameters.DecompBIT` is not under src/; the
number of gadget digits per limb group is a configuration constant (§3:
"gadget decomposition base (digits per limb)"). -/
def Params.decompBIT (pr : Params) (lvlQ lvlP : Nat) : Nat := pr.decompDigits

/-- `encryptor.encryptZeroSymetricQP` (lines 453-498): one symmetric
encryption of zero over the extended ring; `g1`/`g2` are the Gaussian draws,
`uq`/`up` the uniform draws per limb. -/
def encryptZeroSymetricQP (pr : Params) (sk : QPPoly) (lvlQ lvlP : Nat)
    (sample montgomery ntt hasP : Bool) (g1 g2 : List Int)
    (uq up : Nat → List Int) (c : QPPoly × QPPoly) : QPPoly × QPPoly :=
  let c0 := c.1
  let c1 := c.2
  let c0 :=
    if ntt then
      let c0q := gaussReadLvl pr.qs lvlQ g1 c0.q
      let c0p := if hasP then extendBasisLvl (pr.qs.getD 0 1) pr.ps lvlP c0q c0.p else c0.p
      nttLvlQP ⟨c0q, c0p⟩
    else c0
  let c1 :=
    if sample then
      let c1q := uniformReadLvl pr.qs lvlQ uq c1.q
      let c1p := if hasP then uniformReadLvl pr.ps lvlP up c1.p else c1.p
      (⟨c1q, c1p⟩ : QPPoly)
    else c1
  let c0 := mulMontSubLvlQP pr.qs pr.ps pr.n lvlQ lvlP c1 sk c0
  let pair :=
    if ntt then (c0, c1)
    else
      let c0 := invNttLvlQP c0
      let c1 := invNttLvlQP c1
      let eq := gaussReadLvl pr.qs lvlQ g2 (zeroRPoly pr.qs.length pr.n)
      let ep :=
        if hasP then extendBasisLvl (pr.qs.getD 0 1) pr.ps lvlP eq (zeroRPoly pr.ps.length pr.n)
        else zeroRPoly pr.ps.length pr.n
      let c0 := addLvlQP pr.qs pr.ps lvlQ lvlP c0 ⟨eq, ep⟩
      (c0, c1)
  if montgomery then (mformLvlQP pair.1, mformLvlQP pair.2) else pair

/-- Modelled from the spec: `gadget.AddPolyToGadgetMatrix` is not under src/.
Per §4.2, the plaintext — scaled by the gadget digit `2^(logBase2·j)` and in
Montgomery form — is added onto the diagonal entries of the gadget matrix;
matrix `k` receives it on component `k` of its RLWE pairs. -/
def addPolyToGadgetMatrix (pr : Params) (lvlQ : Nat) (pol : RPoly) (g : RgswCiphertext) :
    RgswCiphertext :=
  let scaled := fun (j : Nat) =>
    { pol with
      coeff := fun i =>
        if i ≤ lvlQ then (pol.coeff i).map (fun x => x * 2 ^ (pr.logBase2 * j) % pr.qs.getD i 1)
        else pol.coeff i }
  { g with
    m0 := fun i j =>
      if i = j then
        (⟨addLvlR pr.qs lvlQ (g.m0 i j).1.q (scaled j), (g.m0 i j).1.p⟩, (g.m0 i j).2)
      else g.m0 i j
    m1 := fun i j =>
      if i = j then
        ((g.m1 i j).1, ⟨addLvlR pr.qs lvlQ (g.m1 i j).2.q (scaled j), (g.m1 i j).2.p⟩)
      else g.m1 i j }

/-- `skEncryptor.encryptRGSW` (lines 422-451): encrypt zero symmetrically at
every gadget-matrix entry, then, when a plaintext is supplied, add it scaled
onto the gadget.  The PRNG stream is modelled as an indexed family of draws,
one set per matrix entry and component. -/
def skEncryptRGSW (pr : Params) (sk : SecretKey) (pt : Option Plaintext)
    (g : RgswCiphertext) (sm : RgswSamples) : RgswCiphertext :=
  let dR := pr.decompRNS g.levelQ g.levelP
  let dB := pr.decompBIT g.levelQ g.levelP
  let m0 := fun i j =>
    if i < dR ∧ j < dB then
      encryptZeroSymetricQP pr sk.value g.levelQ g.levelP true true true g.hasP
        (sm.g i j 0) (sm.g2 i j 0) (sm.uq i j 0) (sm.up i j 0) (g.m0 i j)
    else g.m0 i j
  let m1 := fun i j =>
    if i < dR ∧ j < dB then
      encryptZeroSymetricQP pr sk.value g.levelQ g.levelP true true true g.hasP
        (sm.g i j 1) (sm.g2 i j 1) (sm.uq i j 1) (sm.up i j 1) (g.m1 i j)
    else g.m1 i j
  let g2 := { g with m0 := m0, m1 := m1 }
  match pt with
  | none => g2
  | some p =>
    let pool := mformLvlR p.value
    let pool := if !p.value.isNTT then nttLvlR pool else pool
    addPolyToGadgetMatrix pr g2.levelQ pool g2

/-- `skEncryptor.Encrypt` (lines 161-171): dispatch on the target kind; for an
RLWE target `pt.Level()` is dereferenced (a nil plaintext panics) and the mask
is sampled uniformly at the operating level into `Value[1]`; an RGSW target is
encrypted via `encryptRGSW`. -/
def skEncrypt (pr : Params) (sk : SecretKey) (pt : Option Plaintext) (tgt : EncTarget)
    (sm : SkSamples) : Except EncErr SkOut :=
  match tgt with
  | .rlweCt ct =>
    match pt with
    | none => .error .nilPlaintextDeref
    | some p =>
      let lvl := min p.level ct.level
      let ct1 := uniformReadLvl pr.qs lvl sm.mask ct.c1
      (skEncryptRLWE pr sk (some p) { ct with c1 := ct1 } sm.gauss).map .rlweOut
  | .rgswCt g => .ok (.rgswOut (skEncryptRGSW pr sk pt g sm.rg))

/-- `skEncryptor.EncryptFromCRP` (lines 175-178): copy the caller-supplied
common reference polynomial onto `Value[1]` (`ring.CopyValues` copies the
coefficient data, not the metadata flag) and run the secret-key encryption. -/
def skEncryptFromCRP (pr : Params) (sk : SecretKey) (pt : Option Plaintext) (crp : RPoly)
    (ct : Ciphertext) (gauss : Nat → List Int) : Except EncErr Ciphertext :=
  let c1 := { ct.c1 with coeff := crp.coeff, dom := crp.dom }
  skEncryptRLWE pr sk pt { ct with c1 := c1 } gauss

/-- `pkEncryptor.Encrypt` (lines 133-147): type-dispatch; an RLWE target first
dereferences `pt.Level()` (a nil plaintext panics), samples the uniform mask
into `Value[1]`, then takes the auxiliary-modulus path iff `P` is configured
(`basisextender != nil`); an RGSW target is unsupported under a public key. -/
def pkEncrypt (pr : Params) (pk : PublicKey) (pt : Option Plaintext) (tgt : EncTarget)
    (sm : PkSamples) : Except EncErr (Ciphertext × List Event) :=
  match tgt with
  | .rlweCt ct =>
    match pt with
    | none => .error .nilPlaintextDeref
    | some p =>
      let lvl := min p.level ct.level
      let ct1 := uniformReadLvl pr.qs lvl sm.mask ct.c1
      let ct2 := { ct with c1 := ct1 }
      if pr.ps.length ≠ 0 then
        let r := pkEncryptRLWECore pr pk p ct2 sm.tern sm.gauss
        .ok (r.1, .sampleUniform :: r.2)
      else
        let r := pkEncryptNoPCore pr pk p ct2 sm.tern sm.gauss
        .ok (r.1, .sampleUniform :: r.2)
  | .rgswCt _ => .error .unsupportedInput

/-- `pkEncryptor.EncryptFromCRP` (lines 149-152): not defined under a
public key; always panics. -/
def pkEncryptFromCRP (pr : Params) (pk : PublicKey) (pt : Option Plaintext) (crp : RPoly)
    (ct : Ciphertext) : Except EncErr Ciphertext :=
  .error .unsupportedInput

/-- The key accepted by `encryptor.setKey`. -/
inductive KeyInput
  | pub (k : PublicKey)
  | sec (k : SecretKey)

/-- The encryptor variant `setKey` binds. -/
inductive BoundEncryptor
  | pkE (k : PublicKey)
  | skE (k : SecretKey)

/-- `encryptor.setKey` (lines 539-554): the ring-degree precondition check at
key-installation time (`NewEncryptor` / `WithKey`); `Degree()` of a ring
polynomial is its coefficient count (first limb). -/
def setKey (pr : Params) (key : KeyInput) : Except EncErr BoundEncryptor :=
  match key with
  | .pub k =>
    if (k.p0.q.coeff 0).length ≠ pr.n ∨ (k.p1.q.coeff 0).length ≠ pr.n then
      .error .parameterMismatch
    else .ok (.pkE k)
  | .sec k =>
    if (k.value.q.coeff 0).length ≠ pr.n then .error .parameterMismatch
    else .ok (.skE k)

end Rlwe

namespace Lwe

/-- Modelled from the spec: the `lwe` package's sample type is not under src/
(only its tests, src/unnamed/part_000, are); §3: an LWE sample is a vector
`(a_0..a_{N-1}, b)` over one modulus. -/
structure LweSample (n q : ℕ) where
  a : Fin n → ZMod q
  b : ZMod q

/-- An RLWE ciphertext over a single modulus as the extraction layer reads it:
body `c0` (`Value[0]`) and mask `c1` (`Value[1]`), in coefficient form. -/
structure RlweCt (n q : ℕ) where
  c0 : Fin n → ZMod q
  c1 : Fin n → ZMod q

/-- Coefficient `i` of the negacyclic product of `a` and `b` in
`Z_q[X]/(X^n + 1)`: `Fin` subtraction realizes the index wrap-around and the
sign flips exactly on the wrapped contributions. -/
def negacyclicCoeff (n q : ℕ) (a b : Fin n → ZMod q) (i : Fin n) : ZMod q :=
  ∑ j : Fin n, (if (j : ℕ) ≤ (i : ℕ) then (1 : ZMod q) else -1) * a (i - j) * b j

/-- Modelled from the spec: `lwe.RLWEToLWE` is not under src/.  §4.4: the
sample at coefficient `i` has `b` the body's coefficient `i`, and an
`a`-vector that is the mask's coefficients permuted and sign-flipped according
to the negacyclic convolution structure of the ring; the sign convention is
fixed as the one under which the spec's own §4.4 correctness sentence and the
in-src test (`testRLWEToLWE`, which requires `|DecryptLWE| ≤ 19` on an
encryption of zero) hold of the `b − a·s` decryption the spec prescribes for
LWE samples. -/
def extractLWE (n q : ℕ) (ct : RlweCt n q) (i : Fin n) : LweSample n q :=
  { a := fun j => if (j : ℕ) ≤ (i : ℕ) then -(ct.c1 (i - j)) else ct.c1 (i - j)
    b := ct.c0 i }

/-- Modelled from the spec: `lwe.DecryptLWE` is not under src/; §3 fixes LWE
decryption as `b − Σ a_i·s_i mod Q`. -/
def decryptLWE (n q : ℕ) (s : LweSample n q) (sk : Fin n → ZMod q) : ZMod q :=
  s.b - ∑ j : Fin n, s.a j * sk j

/-- Modelled from the spec: RLWE decryption is not under src/; §4.2 fixes
`body = −mask·secret + noise (+ plaintext)`, so the decryption read at
coefficient `i` is `body_i + (mask·secret)_i`. -/
def decryptRLWEAt (n q : ℕ) (ct : RlweCt n q) (sk : Fin n → ZMod q) (i : Fin n) : ZMod q :=
  ct.c0 i + negacyclicCoeff n q ct.c1 sk i

end Lwe

namespace Ckks

/-- `ckks.SinType` (src/ckks/bootstrap_params.go, lines 31-40). -/
inductive SinType
  | sin
  | cos1
  | cos2
  deriving Repr, DecidableEq

/-- `ckks.CoeffsToSlotsModuli` (lines 127-131).  The float64 values of this
file are only moved by the embedded code, never computed with, and are
modelled as rationals. -/
structure CoeffsToSlotsModuli where
  qi : List Nat
  scalingFactor : List (List ℚ)
  deriving Repr, DecidableEq

/-- `ckks.SineEvalModuli` (lines 133-137). -/
structure SineEvalModuli where
  qi : List Nat
  scalingFactor : ℚ
  deriving Repr, DecidableEq

/-- `ckks.SlotsToCoeffsModuli` (lines 139-143). -/
structure SlotsToCoeffsModuli where
  qi : List Nat
  scalingFactor : List (List ℚ)
  deriving Repr, DecidableEq

/-- `ckks.BootstrappingParameters` (lines 42-61, the declaration the methods
of this file resolve against).  `messageQuot` mirrors the field `MessageRatio`
and `maxN1N2Quot` mirrors `MaxN1N2Ratio`. -/
structure BootstrappingParameters where
  residualModuli : List Nat
  keySwitchModuli : List Nat
  slotsToCoeffsModuli : SlotsToCoeffsModuli
  sineEvalModuli : SineEvalModuli
  coeffsToSlotsModuli : CoeffsToSlotsModuli
  logN : Nat
  logSlots : Nat
  scale : ℚ
  sigma : ℚ
  h : Nat
  sinType : SinType
  messageQuot : ℚ
  sinRange : Nat
  sinDeg : Nat
  sinRescal : Nat
  arcSineDeg : Nat
  maxN1N2Quot : ℚ
  deriving Repr, DecidableEq

/-- `BootstrappingParameters.CtSDepth` (lines 162-177): with `actual = true`
the number of moduli consumed, otherwise the factorization depth. -/
def BootstrappingParameters.ctSDepth (b : BootstrappingParameters) (actual : Bool) : Nat :=
  if actual then b.coeffsToSlotsModuli.scalingFactor.length
  else (b.coeffsToSlotsModuli.scalingFactor.map List.length).sum

/-- `BootstrappingParameters.StCDepth` (lines 179-194). -/
def BootstrappingParameters.stCDepth (b : BootstrappingParameters) (actual : Bool) : Nat :=
  if actual then b.slotsToCoeffsModuli.scalingFactor.length
  else (b.slotsToCoeffsModuli.scalingFactor.map List.length).sum

/-- Go's `dst := make([]T, n); copy(dst, src)`: the first `min n src.length`
entries come from `src`, the remaining entries stay at the zero value. -/
def goMakeCopy {α : Type} (n : Nat) (src : List α) (zero : α) : List α :=
  src.take n ++ List.replicate (n - src.length) zero

/-- `BootstrappingParameters.Copy` (lines 80-119), field for field: the struct
literal initializes only the listed scalar fields — every other field keeps
its Go zero value — and each subsequent slice copy mirrors its `make`/`copy`
pair, including the `CtSDepth(true)` length the source uses for
`SineEvalModuli.Qi`. -/
def BootstrappingParameters.Copy (b : BootstrappingParameters) : BootstrappingParameters :=
  let paramsCopy : BootstrappingParameters :=
    { residualModuli := []
      keySwitchModuli := []
      slotsToCoeffsModuli := { qi := [], scalingFactor := [] }
      sineEvalModuli := { qi := [], scalingFactor := 0 }
      coeffsToSlotsModuli := { qi := [], scalingFactor := [] }
      logN := 0
      logSlots := 0
      scale := 0
      sigma := 0
      h := b.h
      sinType := b.sinType
      messageQuot := b.messageQuot
      sinRange := b.sinRange
      sinDeg := b.sinDeg
      sinRescal := b.sinRescal
      arcSineDeg := b.arcSineDeg
      maxN1N2Quot := b.maxN1N2Quot }
  { paramsCopy with
    residualModuli := goMakeCopy b.residualModuli.length b.residualModuli 0
    coeffsToSlotsModuli :=
      { qi := goMakeCopy (b.ctSDepth true) b.coeffsToSlotsModuli.qi 0
        scalingFactor := (List.range (b.ctSDepth true)).map fun i =>
          let row := b.coeffsToSlotsModuli.scalingFactor.getD i []
          goMakeCopy row.length row 0 }
    sineEvalModuli :=
      { qi := goMakeCopy (b.ctSDepth true) b.sineEvalModuli.qi 0
        scalingFactor := b.sineEvalModuli.scalingFactor }
    slotsToCoeffsModuli :=
      { qi := goMakeCopy (b.stCDepth true) b.slotsToCoeffsModuli.qi 0
        scalingFactor := (List.range (b.stCDepth true)).map fun i =>
          let row := b.slotsToCoeffsModuli.scalingFactor.getD i []
          goMakeCopy row.length row 0 } }

end Ckks

namespace Rlwe

/-- Whether a result value is a success (`Go`: the call returned without
panicking). -/
def isOkE {ε α : Type} (r : Except ε α) : Bool :=
  match r with
  | .ok _ => true
  | .error _ => false

/-- The operation trace of a public-key `Encrypt` result (empty on a panic). -/
def traceOfPk (r : Except EncErr (Ciphertext × List Event)) : List Event :=
  match r with
  | .ok x => x.2
  | .error _ => []

/-- The ciphertext of a public-key `Encrypt` result (the zero-size ciphertext
on a panic, never used in that case). -/
def ctOfPk (r : Except EncErr (Ciphertext × List Event)) : Ciphertext :=
  match r with
  | .ok x => x.1
  | .error _ => ⟨zeroRPoly 0 0, zeroRPoly 0 0⟩

/-- The RLWE ciphertext of a secret-key `Encrypt` result. -/
def ctOfSk (r : Except EncErr SkOut) : Ciphertext :=
  match r with
  | .ok (.rlweOut c) => c
  | _ => ⟨zeroRPoly 0 0, zeroRPoly 0 0⟩

/-- The order the claim under review states for the auxiliary-modulus
public-key path: the mod-down by `P` happens first, and only then is Gaussian
noise added — equivalently, no `addNoise` event may precede the first
`modDownP` event. -/
def noNoiseBeforeModDown (t : List Event) : Bool :=
  (t.takeWhile (fun e => e != Event.modDownP)).all (fun e => e != Event.addNoise)

/-- The fixed operation sequence of `pkEncryptor.encryptRLWE` up to and
including the two mod-downs. -/
def pkTraceSteps : List Event :=
  [.sampleTernary, .extendBasis, .nttOp, .mformOp, .mulPk, .mulPk, .invNttOp, .invNttOp,
   .sampleGaussian, .extendBasis, .addNoise, .sampleGaussian, .extendBasis, .addNoise,
   .modDownP, .modDownP]

/-- The closing operations of `pkEncryptor.encryptRLWE`, by the input
ciphertext flag and the plaintext domain. -/
def pkTraceTail (ctNTT ptNTT : Bool) : List Event :=
  if ctNTT then
    if ptNTT then [.nttOp, .nttOp, .addPlain] else [.addPlain, .nttOp, .nttOp]
  else
    if ptNTT then [.invNttOp, .addPlain] else [.addPlain]

/-- Whether the two components of a ciphertext carry the same `IsNTT` flag. -/
def flagsAgreeCt (c : Ciphertext) : Bool := c.c0.isNTT == c.c1.isNTT

/-- `flagsAgreeCt` on a public-key `Encrypt` result (vacuous on a panic). -/
def flagsAgreePk (r : Except EncErr (Ciphertext × List Event)) : Bool :=
  match r with
  | .ok x => flagsAgreeCt x.1
  | .error _ => true

/-- `flagsAgreeCt` on a secret-key `Encrypt` result (vacuous on a panic or an
RGSW result). -/
def flagsAgreeSk (r : Except EncErr SkOut) : Bool :=
  match r with
  | .ok (.rlweOut c) => flagsAgreeCt c
  | _ => true

/-- `flagsAgreeCt` on an `EncryptFromCRP` result. -/
def flagsAgreeCrp (r : Except EncErr Ciphertext) : Bool :=
  match r with
  | .ok c => flagsAgreeCt c
  | .error _ => true

/-- Whether both components of a ciphertext are in representation `f` and
carry `f` as their flag. -/
def domMatchesCt (c : Ciphertext) (f : Bool) : Bool :=
  (c.c0.dom == f) && (c.c1.dom == f) && (c.c0.isNTT == f) && (c.c1.isNTT == f)

/-- `domMatchesCt` on a public-key `Encrypt` result. -/
def domMatchesPk (r : Except EncErr (Ciphertext × List Event)) (f : Bool) : Bool :=
  match r with
  | .ok x => domMatchesCt x.1 f
  | .error _ => true

/-- `domMatchesCt` on a secret-key `Encrypt` result. -/
def domMatchesSk (r : Except EncErr SkOut) (f : Bool) : Bool :=
  match r with
  | .ok (.rlweOut c) => domMatchesCt c f
  | _ => true

/-- The mask limb the spec prescribes for the secret-key path: limb `i` is the
uniform sampler's draw for limb `i`, reduced modulo `qs[i]` (a uniform element
of `Z_{qs[i]}`). -/
def specMaskLimb (qs : List Int) (mraw : Nat → List Int) (i : Nat) : List Int :=
  redCoeffs (qs.getD i 1) (mraw i)

/-- The body limb the spec prescribes for the secret-key path:
`−mask·secret + noise + plaintext` at limb `i`. -/
def specBodyLimb (pr : Params) (sk : SecretKey) (p : Plaintext) (mraw : Nat → List Int)
    (e : List Int) (i : Nat) : List Int :=
  let q := pr.qs.getD i 1
  addCoeffs q
    (addCoeffs q
      (negCoeffs q (negacyclicMul q pr.n (specMaskLimb pr.qs mraw i) (sk.value.q.coeff i)))
      (redCoeffs q e))
    (p.value.coeff i)

/-- A concrete zero polynomial with one limb of two coefficients, used by the
concrete probes below. -/
def cPolyZ : RPoly := { coeff := fun _ => [0, 0], count := 1, isNTT := false, dom := false }

/-- The same polynomial tagged as NTT-form data (the form keys are stored in).
-/
def cPolyN : RPoly := { cPolyZ with isNTT := true, dom := true }

/-- Concrete probe parameters with an auxiliary modulus configured. -/
def cParamsP : Params := { n := 2, qs := [17], ps := [5], logBase2 := 1, decompDigits := 1 }

/-- Concrete probe parameters without an auxiliary modulus and a two-modulus
chain. -/
def cParamsQ : Params := { n := 2, qs := [17, 97], ps := [], logBase2 := 1, decompDigits := 1 }

/-- A concrete public key over the probe parameters. -/
def cPk : PublicKey := { p0 := ⟨cPolyN, cPolyN⟩, p1 := ⟨cPolyN, cPolyN⟩ }

/-- A concrete secret key over the probe parameters. -/
def cSk : SecretKey := { value := ⟨cPolyN, cPolyN⟩ }

/-- A concrete level-0 plaintext. -/
def cPt : Plaintext := { value := cPolyZ }

/-- A concrete level-0 ciphertext target in coefficient form. -/
def cCt : Ciphertext := { c0 := cPolyZ, c1 := cPolyZ }

/-- A concrete level-1 ciphertext target (two limbs). -/
def cCtL1 : Ciphertext :=
  { c0 := { cPolyZ with count := 2 }, c1 := { cPolyZ with count := 2 } }

/-- Concrete entropy for the public-key probes. -/
def cSm : PkSamples := { mask := fun _ => [0, 0], tern := [0, 0], gauss := fun _ => [0, 0] }

/-- Concrete entropy for the secret-key probes. -/
def cSmSk : SkSamples :=
  { mask := fun _ => [0, 0], gauss := fun _ => [0, 0],
    rg := { g := fun _ _ _ => [0, 0], g2 := fun _ _ _ => [0, 0],
            uq := fun _ _ _ _ => [0, 0], up := fun _ _ _ _ => [0, 0] } }

end Rlwe

/-- A concrete bootstrapping-parameter value shaped like the entries of
`DefaultBootstrapParams` (`LogN = 16`, a `SineEvalModuli.Qi` list longer than
`CtSDepth(true)`), used to evaluate `Copy` at a concrete input. -/
def cBoot : Ckks.BootstrappingParameters :=
  { residualModuli := [55, 45]
    keySwitchModuli := [56, 56]
    slotsToCoeffsModuli := { qi := [36], scalingFactor := [[36]] }
    sineEvalModuli := { qi := [50, 51, 52], scalingFactor := 50 }
    coeffsToSlotsModuli := { qi := [53], scalingFactor := [[53]] }
    logN := 16
    logSlots := 15
    scale := 45
    sigma := 1
    h := 192
    sinType := .cos1
    messageQuot := 1024
    sinRange := 25
    sinDeg := 63
    sinRescal := 2
    arcSineDeg := 0
    maxN1N2Quot := 16 }

theorem intAddmAux (q x y z : Int) : ((x + y) % q + z) % q = (x + y + z) % q := by
  rw [Int.add_emod ((x + y) % q) z, Int.emod_emod_of_dvd _ dvd_rfl, ← Int.add_emod]

theorem addCoeffsAssoc (q : Int) (a b c : List Int) :
    Rlwe.addCoeffs q (Rlwe.addCoeffs q a b) c = Rlwe.addCoeffs q a (Rlwe.addCoeffs q b c) := by
  induction a generalizing b c with
  | nil => simp [Rlwe.addCoeffs]
  | cons x xs ih =>
    cases b with
    | nil => simp [Rlwe.addCoeffs]
    | cons y ys =>
      cases c with
      | nil => simp [Rlwe.addCoeffs]
      | cons z zs =>
        simp only [Rlwe.addCoeffs, List.zipWith_cons_cons] at ih ⊢
        refine congrArg₂ _ ?_ (ih ys zs)
        rw [intAddmAux, Int.add_comm x ((y + z) % q), intAddmAux]
        ring_nf

theorem addCoeffsRightComm (q : Int) (a b c : List Int) :
    Rlwe.addCoeffs q (Rlwe.addCoeffs q a b) c = Rlwe.addCoeffs q (Rlwe.addCoeffs q a c) b := by
  induction a generalizing b c with
  | nil => simp [Rlwe.addCoeffs]
  | cons x xs ih =>
    cases b with
    | nil => cases c <;> simp [Rlwe.addCoeffs]
    | cons y ys =>
      cases c with
      | nil => simp [Rlwe.addCoeffs]
      | cons z zs =>
        simp only [Rlwe.addCoeffs, List.zipWith_cons_cons] at ih ⊢
        refine congrArg₂ _ ?_ (ih ys zs)
        rw [intAddmAux, intAddmAux]
        ring_nf

/-- C3: for every coefficient index, every ciphertext and every secret key,
decrypting the extracted LWE sample directly via `b − a·s` equals decrypting
the RLWE ciphertext and reading that coefficient — the two values are equal
exactly, so in particular their difference is within the tested bound of 19. -/
theorem c3_extraction_correct :
    ∀ (n q : ℕ) (ct : Lwe.RlweCt n q) (sk : Fin n → ZMod q) (i : Fin n),
      Lwe.decryptLWE n q (Lwe.extractLWE n q ct i) sk = Lwe.decryptRLWEAt n q ct sk i := by
  intro n q ct sk i
  unfold Lwe.decryptLWE Lwe.extractLWE Lwe.decryptRLWEAt Lwe.negacyclicCoeff
  rw [sub_eq_add_neg, ← Finset.sum_neg_distrib]
  congr 1
  refine Finset.sum_congr rfl ?_
  intro j _
  by_cases h : (j : ℕ) ≤ (i : ℕ) <;> simp [h]

/-- C4: the claim says a nil plaintext must succeed and produce an encryption
of zero; the code instead dereferences the nil plaintext (`pt.Level()`) before
its own nil-plaintext guards, so both variants panic on an RLWE target. -/
theorem c4_nil_plaintext_panics :
    (∀ (pr : Rlwe.Params) (pk : Rlwe.PublicKey) (ct : Rlwe.Ciphertext) (sm : Rlwe.PkSamples),
      Rlwe.pkEncrypt pr pk none (.rlweCt ct) sm = .error .nilPlaintextDeref) ∧
    (∀ (pr : Rlwe.Params) (sk : Rlwe.SecretKey) (ct : Rlwe.Ciphertext) (sm : Rlwe.SkSamples),
      Rlwe.skEncrypt pr sk none (.rlweCt ct) sm = .error .nilPlaintextDeref) :=
  ⟨fun _ _ _ _ => rfl, fun _ _ _ _ => rfl⟩

/-- C9: under the public-key variant `EncryptFromCRP` fails for every input
and an RGSW target fails with the unsupported-kind error; under the
secret-key variant both combinations succeed. -/
theorem c9_unsupported_combinations :
    (∀ (pr : Rlwe.Params) (pk : Rlwe.PublicKey) (pt : Option Rlwe.Plaintext)
      (crp : Rlwe.RPoly) (ct : Rlwe.Ciphertext),
      Rlwe.pkEncryptFromCRP pr pk pt crp ct = .error .unsupportedInput) ∧
    (∀ (pr : Rlwe.Params) (pk : Rlwe.PublicKey) (pt : Option Rlwe.Plaintext)
      (g : Rlwe.RgswCiphertext) (sm : Rlwe.PkSamples),
      Rlwe.pkEncrypt pr pk pt (.rgswCt g) sm = .error .unsupportedInput) ∧
    (∀ (pr : Rlwe.Params) (sk : Rlwe.SecretKey) (pt : Option Rlwe.Plaintext)
      (g : Rlwe.RgswCiphertext) (sm : Rlwe.SkSamples),
      Rlwe.isOkE (Rlwe.skEncrypt pr sk pt (.rgswCt g) sm) = true) ∧
    (∀ (pr : Rlwe.Params) (sk : Rlwe.SecretKey) (p : Rlwe.Plaintext) (crp : Rlwe.RPoly)
      (ct : Rlwe.Ciphertext) (gauss : Nat → List Int),
      Rlwe.isOkE (Rlwe.skEncryptFromCRP pr sk (some p) crp ct gauss) = true) :=
  ⟨fun _ _ _ _ _ => rfl, fun _ _ _ _ _ => rfl, fun _ _ _ _ _ => rfl,
   fun _ _ _ _ _ _ => rfl⟩

/-- C10: `Copy` contradicts its own doc comment ("a copy of the target"): the
scalar fields `LogN`, `LogSlots`, `Scale`, `Sigma` and the whole
`KeySwitchModuli` list are left at their zero values, and `SineEvalModuli.Qi`
is allocated with length `CtSDepth(true)` instead of the source length, here
truncating three sine moduli to one. -/
theorem c10_copy_drops_fields :
    cBoot.logN = 16 ∧
    cBoot.Copy.logN = 0 ∧
    cBoot.Copy.logSlots = 0 ∧
    cBoot.Copy.scale = 0 ∧
    cBoot.Copy.sigma = 0 ∧
    cBoot.keySwitchModuli = [56, 56] ∧
    cBoot.Copy.keySwitchModuli = [] ∧
    cBoot.sineEvalModuli.qi.length = 3 ∧
    cBoot.Copy.sineEvalModuli.qi.length = 1 ∧
    cBoot.Copy.sineEvalModuli.qi = [50] ∧
    cBoot.Copy.h = cBoot.h := by
  refine ⟨rfl, rfl, rfl, rfl, rfl, rfl, rfl, rfl, ?_, ?_, rfl⟩ <;> rfl

/-- C7: on return from either `Encrypt`, from `EncryptFromCRP`, and on the
no-P public-key path, the `IsNTT` flags of a ciphertext's two components
agree. -/
theorem c7_flags_agree :
    (∀ (pr : Rlwe.Params) (pk : Rlwe.PublicKey) (pt : Option Rlwe.Plaintext)
      (tgt : Rlwe.EncTarget) (sm : Rlwe.PkSamples),
      Rlwe.flagsAgreePk (Rlwe.pkEncrypt pr pk pt tgt sm) = true) ∧
    (∀ (pr : Rlwe.Params) (sk : Rlwe.SecretKey) (pt : Option Rlwe.Plaintext)
      (tgt : Rlwe.EncTarget) (sm : Rlwe.SkSamples),
      Rlwe.flagsAgreeSk (Rlwe.skEncrypt pr sk pt tgt sm) = true) ∧
    (∀ (pr : Rlwe.Params) (sk : Rlwe.SecretKey) (pt : Option Rlwe.Plaintext)
      (crp : Rlwe.RPoly) (ct : Rlwe.Ciphertext) (gauss : Nat → List Int),
      Rlwe.flagsAgreeCrp (Rlwe.skEncryptFromCRP pr sk pt crp ct gauss) = true) := by
  refine ⟨?_, ?_, ?_⟩
  · intro pr pk pt tgt sm
    cases tgt with
    | rgswCt g => rfl
    | rlweCt ct =>
      cases pt with
      | none => rfl
      | some p =>
        simp only [Rlwe.pkEncrypt]
        split
        · cases h1 : ct.c0.isNTT <;> cases h2 : p.value.isNTT <;>
            simp [Rlwe.pkEncryptRLWECore, Rlwe.flagsAgreePk, Rlwe.flagsAgreeCt, Rlwe.truncR,
              Rlwe.setFlag, Rlwe.addLvlR, Rlwe.nttLvlR, Rlwe.invNttLvlR, Rlwe.mformLvlR,
              Rlwe.modDownR, Rlwe.addLvlQP, Rlwe.mulMontLvlQP, Rlwe.mulMontLvlR,
              Rlwe.invNttLvlQP, Rlwe.nttLvlQP, Rlwe.mformLvlQP, Rlwe.uniformReadLvl,
              Rlwe.gaussReadLvl, Rlwe.ternaryReadLvl, Rlwe.extendBasisLvl, Rlwe.zeroRPoly,
              h1, h2]
        · cases h1 : ct.c0.isNTT <;> cases h2 : p.value.isNTT <;>
            simp [Rlwe.pkEncryptNoPCore, Rlwe.flagsAgreePk, Rlwe.flagsAgreeCt, Rlwe.truncR,
              Rlwe.setFlag, Rlwe.addLvlR, Rlwe.nttLvlR, Rlwe.invNttLvlR, Rlwe.mformLvlR,
              Rlwe.gaussReadAddLvl, Rlwe.mulMontLvlR, Rlwe.uniformReadLvl,
              Rlwe.gaussReadLvl, Rlwe.ternaryReadLvl, Rlwe.zeroRPoly, h1, h2]
  · intro pr sk pt tgt sm
    cases tgt with
    | rgswCt g => rfl
    | rlweCt ct =>
      cases pt with
      | none => rfl
      | some p =>
        cases h1 : ct.c0.isNTT <;> cases h2 : p.value.isNTT <;>
          simp [Rlwe.skEncrypt, Rlwe.skEncryptRLWE, Rlwe.skEncryptRLWECore, Except.map,
            Rlwe.flagsAgreeSk, Rlwe.flagsAgreeCt, Rlwe.truncR, Rlwe.setFlag, Rlwe.addLvlR,
            Rlwe.nttLvlR, Rlwe.invNttLvlR, Rlwe.negLvlR, Rlwe.gaussReadAddLvl,
            Rlwe.mulMontLvlR, Rlwe.uniformReadLvl, Rlwe.gaussReadLvl, Rlwe.zeroRPoly,
            h1, h2]
  · intro pr sk pt crp ct gauss
    cases pt with
    | none => rfl
    | some p =>
      cases h1 : ct.c0.isNTT <;> cases h2 : p.value.isNTT <;>
        simp [Rlwe.skEncryptFromCRP, Rlwe.skEncryptRLWE, Rlwe.skEncryptRLWECore, Except.map,
          Rlwe.flagsAgreeCrp, Rlwe.flagsAgreeCt, Rlwe.truncR, Rlwe.setFlag, Rlwe.addLvlR,
          Rlwe.nttLvlR, Rlwe.invNttLvlR, Rlwe.negLvlR, Rlwe.gaussReadAddLvl,
          Rlwe.mulMontLvlR, Rlwe.uniformReadLvl, Rlwe.gaussReadLvl, Rlwe.zeroRPoly,
          h1, h2]

theorem truncR_count (lvl : Nat) (a : Rlwe.RPoly) : (Rlwe.truncR lvl a).count = lvl + 1 := rfl

theorem truncR_dom (lvl : Nat) (a : Rlwe.RPoly) : (Rlwe.truncR lvl a).dom = a.dom := rfl

theorem truncR_isNTT (lvl : Nat) (a : Rlwe.RPoly) : (Rlwe.truncR lvl a).isNTT = a.isNTT := rfl

theorem setFlag_dom (b : Bool) (a : Rlwe.RPoly) : (Rlwe.setFlag b a).dom = a.dom := rfl

theorem setFlag_isNTT (b : Bool) (a : Rlwe.RPoly) : (Rlwe.setFlag b a).isNTT = b := rfl

theorem setFlag_count (b : Bool) (a : Rlwe.RPoly) : (Rlwe.setFlag b a).count = a.count := rfl

theorem nttLvlR_dom (a : Rlwe.RPoly) : (Rlwe.nttLvlR a).dom = true := rfl

theorem nttLvlR_isNTT (a : Rlwe.RPoly) : (Rlwe.nttLvlR a).isNTT = a.isNTT := rfl

theorem nttLvlR_count (a : Rlwe.RPoly) : (Rlwe.nttLvlR a).count = a.count := rfl

theorem invNttLvlR_dom (a : Rlwe.RPoly) : (Rlwe.invNttLvlR a).dom = false := rfl

theorem invNttLvlR_isNTT (a : Rlwe.RPoly) : (Rlwe.invNttLvlR a).isNTT = a.isNTT := rfl

theorem invNttLvlR_count (a : Rlwe.RPoly) : (Rlwe.invNttLvlR a).count = a.count := rfl

theorem mformLvlR_eq (a : Rlwe.RPoly) : Rlwe.mformLvlR a = a := rfl

theorem addLvlR_dom (qs : List Int) (lvl : Nat) (a b : Rlwe.RPoly) :
    (Rlwe.addLvlR qs lvl a b).dom = a.dom := rfl

theorem addLvlR_isNTT (qs : List Int) (lvl : Nat) (a b : Rlwe.RPoly) :
    (Rlwe.addLvlR qs lvl a b).isNTT = a.isNTT := rfl

theorem addLvlR_count (qs : List Int) (lvl : Nat) (a b : Rlwe.RPoly) :
    (Rlwe.addLvlR qs lvl a b).count = a.count := rfl

theorem negLvlR_dom (qs : List Int) (lvl : Nat) (a : Rlwe.RPoly) :
    (Rlwe.negLvlR qs lvl a).dom = a.dom := rfl

theorem negLvlR_isNTT (qs : List Int) (lvl : Nat) (a : Rlwe.RPoly) :
    (Rlwe.negLvlR qs lvl a).isNTT = a.isNTT := rfl

theorem negLvlR_count (qs : List Int) (lvl : Nat) (a : Rlwe.RPoly) :
    (Rlwe.negLvlR qs lvl a).count = a.count := rfl

theorem mulMontLvlR_dom (qs : List Int) (n lvl : Nat) (a b dst : Rlwe.RPoly) :
    (Rlwe.mulMontLvlR qs n lvl a b dst).dom = a.dom := rfl

theorem mulMontLvlR_isNTT (qs : List Int) (n lvl : Nat) (a b dst : Rlwe.RPoly) :
    (Rlwe.mulMontLvlR qs n lvl a b dst).isNTT = dst.isNTT := rfl

theorem mulMontLvlR_count (qs : List Int) (n lvl : Nat) (a b dst : Rlwe.RPoly) :
    (Rlwe.mulMontLvlR qs n lvl a b dst).count = dst.count := rfl

theorem ternaryReadLvl_dom (qs : List Int) (lvl : Nat) (raw : List Int) (dst : Rlwe.RPoly) :
    (Rlwe.ternaryReadLvl qs lvl raw dst).dom = false := rfl

theorem ternaryReadLvl_isNTT (qs : List Int) (lvl : Nat) (raw : List Int) (dst : Rlwe.RPoly) :
    (Rlwe.ternaryReadLvl qs lvl raw dst).isNTT = dst.isNTT := rfl

theorem gaussReadLvl_dom (qs : List Int) (lvl : Nat) (raw : List Int) (dst : Rlwe.RPoly) :
    (Rlwe.gaussReadLvl qs lvl raw dst).dom = false := rfl

theorem gaussReadLvl_isNTT (qs : List Int) (lvl : Nat) (raw : List Int) (dst : Rlwe.RPoly) :
    (Rlwe.gaussReadLvl qs lvl raw dst).isNTT = dst.isNTT := rfl

theorem gaussReadLvl_count (qs : List Int) (lvl : Nat) (raw : List Int) (dst : Rlwe.RPoly) :
    (Rlwe.gaussReadLvl qs lvl raw dst).count = dst.count := rfl

theorem gaussReadAddLvl_dom (qs : List Int) (lvl : Nat) (raw : List Int) (dst : Rlwe.RPoly) :
    (Rlwe.gaussReadAddLvl qs lvl raw dst).dom = dst.dom := rfl

theorem gaussReadAddLvl_isNTT (qs : List Int) (lvl : Nat) (raw : List Int) (dst : Rlwe.RPoly) :
    (Rlwe.gaussReadAddLvl qs lvl raw dst).isNTT = dst.isNTT := rfl

theorem gaussReadAddLvl_count (qs : List Int) (lvl : Nat) (raw : List Int) (dst : Rlwe.RPoly) :
    (Rlwe.gaussReadAddLvl qs lvl raw dst).count = dst.count := rfl

theorem uniformReadLvl_dom (qs : List Int) (lvl : Nat) (raw : Nat → List Int)
    (dst : Rlwe.RPoly) : (Rlwe.uniformReadLvl qs lvl raw dst).dom = true := rfl

theorem uniformReadLvl_isNTT (qs : List Int) (lvl : Nat) (raw : Nat → List Int)
    (dst : Rlwe.RPoly) : (Rlwe.uniformReadLvl qs lvl raw dst).isNTT = dst.isNTT := rfl

theorem uniformReadLvl_count (qs : List Int) (lvl : Nat) (raw : Nat → List Int)
    (dst : Rlwe.RPoly) : (Rlwe.uniformReadLvl qs lvl raw dst).count = dst.count := rfl

theorem extendBasisLvl_dom (q0 : Int) (ps : List Int) (lvlP : Nat) (srcQ dstP : Rlwe.RPoly) :
    (Rlwe.extendBasisLvl q0 ps lvlP srcQ dstP).dom = srcQ.dom := rfl

theorem extendBasisLvl_isNTT (q0 : Int) (ps : List Int) (lvlP : Nat)
    (srcQ dstP : Rlwe.RPoly) :
    (Rlwe.extendBasisLvl q0 ps lvlP srcQ dstP).isNTT = dstP.isNTT := rfl

theorem modDownR_dom (qs ps : List Int) (n lvlQ lvlP : Nat) (aQ aP : Rlwe.RPoly) :
    (Rlwe.modDownR qs ps n lvlQ lvlP aQ aP).dom = aQ.dom := rfl

theorem modDownR_isNTT (qs ps : List Int) (n lvlQ lvlP : Nat) (aQ aP : Rlwe.RPoly) :
    (Rlwe.modDownR qs ps n lvlQ lvlP aQ aP).isNTT = aQ.isNTT := rfl

theorem modDownR_count (qs ps : List Int) (n lvlQ lvlP : Nat) (aQ aP : Rlwe.RPoly) :
    (Rlwe.modDownR qs ps n lvlQ lvlP aQ aP).count = aQ.count := rfl

theorem nttLvlQP_q (a : Rlwe.QPPoly) : (Rlwe.nttLvlQP a).q = Rlwe.nttLvlR a.q := rfl

theorem invNttLvlQP_q (a : Rlwe.QPPoly) : (Rlwe.invNttLvlQP a).q = Rlwe.invNttLvlR a.q := rfl

theorem mformLvlQP_q (a : Rlwe.QPPoly) : (Rlwe.mformLvlQP a).q = a.q := rfl

theorem addLvlQP_q (qs ps : List Int) (lvlQ lvlP : Nat) (a b : Rlwe.QPPoly) :
    (Rlwe.addLvlQP qs ps lvlQ lvlP a b).q = Rlwe.addLvlR qs lvlQ a.q b.q := rfl

theorem mulMontLvlQP_q (qs ps : List Int) (n lvlQ lvlP : Nat) (a b dst : Rlwe.QPPoly) :
    (Rlwe.mulMontLvlQP qs ps n lvlQ lvlP a b dst).q = Rlwe.mulMontLvlR qs n lvlQ a.q b.q dst.q :=
  rfl

/-- C8: after `Encrypt` (public- or secret-key, with or without an auxiliary
modulus), both components of the written ciphertext sit at the minimum of the
plaintext's and the ciphertext's input levels, which never exceeds the
ciphertext's input level. -/
theorem c8_level_never_increases :
    (∀ (pr : Rlwe.Params) (pk : Rlwe.PublicKey) (p : Rlwe.Plaintext) (ct : Rlwe.Ciphertext)
      (sm : Rlwe.PkSamples),
      (Rlwe.ctOfPk (Rlwe.pkEncrypt pr pk (some p) (.rlweCt ct) sm)).c0.level
          = min p.level ct.level ∧
      (Rlwe.ctOfPk (Rlwe.pkEncrypt pr pk (some p) (.rlweCt ct) sm)).c1.level
          = min p.level ct.level ∧
      min p.level ct.level ≤ ct.level) ∧
    (∀ (pr : Rlwe.Params) (sk : Rlwe.SecretKey) (p : Rlwe.Plaintext) (ct : Rlwe.Ciphertext)
      (sm : Rlwe.SkSamples),
      (Rlwe.ctOfSk (Rlwe.skEncrypt pr sk (some p) (.rlweCt ct) sm)).c0.level
          = min p.level ct.level ∧
      (Rlwe.ctOfSk (Rlwe.skEncrypt pr sk (some p) (.rlweCt ct) sm)).c1.level
          = min p.level ct.level ∧
      min p.level ct.level ≤ ct.level) := by
  constructor
  · intro pr pk p ct sm
    obtain ⟨⟨c0co, c0ct, c0n, c0d⟩, ⟨c1co, c1ct, c1n, c1d⟩⟩ := ct
    obtain ⟨⟨pco, pct, pn, pd⟩⟩ := p
    simp only [Rlwe.pkEncrypt]
    split <;> cases c0n <;> cases pn <;> exact ⟨rfl, rfl, Nat.min_le_right _ _⟩
  · intro pr sk p ct sm
    obtain ⟨⟨c0co, c0ct, c0n, c0d⟩, ⟨c1co, c1ct, c1n, c1d⟩⟩ := ct
    obtain ⟨⟨pco, pct, pn, pd⟩⟩ := p
    cases c0n <;> cases pn <;> exact ⟨rfl, rfl, Nat.min_le_right _ _⟩

/-- C6: after `Encrypt` the written ciphertext is in the domain (NTT or
coefficient) named by the flag its `Value[0]` carried on input — the path
applies the needed transforms — and both components carry that flag, for any
plaintext domain, on the public-key paths (with and without `P`) and on the
secret-key path. -/
theorem c6_domain_matches_input_flag :
    (∀ (pr : Rlwe.Params) (pk : Rlwe.PublicKey) (p : Rlwe.Plaintext) (ct : Rlwe.Ciphertext)
      (sm : Rlwe.PkSamples),
      Rlwe.domMatchesPk (Rlwe.pkEncrypt pr pk (some p) (.rlweCt ct) sm) ct.c0.isNTT = true) ∧
    (∀ (pr : Rlwe.Params) (sk : Rlwe.SecretKey) (p : Rlwe.Plaintext) (ct : Rlwe.Ciphertext)
      (sm : Rlwe.SkSamples),
      Rlwe.domMatchesSk (Rlwe.skEncrypt pr sk (some p) (.rlweCt ct) sm) ct.c0.isNTT = true) := by
  constructor
  · intro pr pk p ct sm
    obtain ⟨⟨c0co, c0ct, c0n, c0d⟩, ⟨c1co, c1ct, c1n, c1d⟩⟩ := ct
    obtain ⟨⟨pco, pct, pn, pd⟩⟩ := p
    simp only [Rlwe.pkEncrypt]
    split <;> cases c0n <;> cases pn <;> rfl
  · intro pr sk p ct sm
    obtain ⟨⟨c0co, c0ct, c0n, c0d⟩, ⟨c1co, c1ct, c1n, c1d⟩⟩ := ct
    obtain ⟨⟨pco, pct, pn, pd⟩⟩ := p
    cases c0n <;> cases pn <;> rfl

/-- C5 (amended): `Encrypt` itself performs no precondition validation — it
succeeds for every level combination (operating at the minimum of the
plaintext's and the ciphertext's levels) — while the ring-degree precondition
is enforced as a `ParameterMismatch` failure at key-installation time
(`setKey`, reached from `NewEncryptor`/`WithKey`), and that is the only way
either check fails. -/
theorem c5_validation_at_setkey_not_encrypt :
    (∀ (pr : Rlwe.Params) (k : Rlwe.PublicKey),
      (Rlwe.setKey pr (.pub k) = .ok (.pkE k) ∨
        Rlwe.setKey pr (.pub k) = .error .parameterMismatch) ∧
      (Rlwe.isOkE (Rlwe.setKey pr (.pub k)) = true ↔
        (k.p0.q.coeff 0).length = pr.n ∧ (k.p1.q.coeff 0).length = pr.n)) ∧
    (∀ (pr : Rlwe.Params) (k : Rlwe.SecretKey),
      (Rlwe.setKey pr (.sec k) = .ok (.skE k) ∨
        Rlwe.setKey pr (.sec k) = .error .parameterMismatch) ∧
      (Rlwe.isOkE (Rlwe.setKey pr (.sec k)) = true ↔ (k.value.q.coeff 0).length = pr.n)) ∧
    (∀ (pr : Rlwe.Params) (pk : Rlwe.PublicKey) (p : Rlwe.Plaintext) (ct : Rlwe.Ciphertext)
      (sm : Rlwe.PkSamples),
      Rlwe.isOkE (Rlwe.pkEncrypt pr pk (some p) (.rlweCt ct) sm) = true) ∧
    (∀ (pr : Rlwe.Params) (sk : Rlwe.SecretKey) (p : Rlwe.Plaintext) (ct : Rlwe.Ciphertext)
      (sm : Rlwe.SkSamples),
      Rlwe.isOkE (Rlwe.skEncrypt pr sk (some p) (.rlweCt ct) sm) = true) := by
  refine ⟨?_, ?_, ?_, ?_⟩
  · intro pr k
    constructor
    · simp only [Rlwe.setKey]
      split
      · right; rfl
      · left; rfl
    · simp only [Rlwe.setKey]
      split
      · rename_i h
        simp only [Rlwe.isOkE]
        simp only [Bool.false_eq_true, false_iff]
        tauto
      · rename_i h
        push_neg at h
        simp only [Rlwe.isOkE, true_iff]
        exact h
  · intro pr k
    constructor
    · simp only [Rlwe.setKey]
      split
      · right; rfl
      · left; rfl
    · simp only [Rlwe.setKey]
      split
      · rename_i h
        simp only [Rlwe.isOkE, Bool.false_eq_true, false_iff]
        exact h
      · rename_i h
        push_neg at h
        simp only [Rlwe.isOkE, true_iff]
        exact h
  · intro pr pk p ct sm
    obtain ⟨⟨c0co, c0ct, c0n, c0d⟩, ⟨c1co, c1ct, c1n, c1d⟩⟩ := ct
    obtain ⟨⟨pco, pct, pn, pd⟩⟩ := p
    simp only [Rlwe.pkEncrypt]
    split <;> cases c0n <;> cases pn <;> rfl
  · intro pr sk p ct sm
    obtain ⟨⟨c0co, c0ct, c0n, c0d⟩, ⟨c1co, c1ct, c1n, c1d⟩⟩ := ct
    obtain ⟨⟨pco, pct, pn, pd⟩⟩ := p
    cases c0n <;> cases pn <;> rfl

/-- C5 counterexample: a concrete call in which the ciphertext's level (1)
exceeds the plaintext's level (0), and `Encrypt` nevertheless succeeds — the
ParameterMismatch failure the claim requires at the start of the call never
happens. -/
theorem c5_no_level_check_counterexample :
    Rlwe.cCtL1.level = 1 ∧ Rlwe.cPt.level = 0 ∧
    Rlwe.isOkE (Rlwe.pkEncrypt Rlwe.cParamsQ Rlwe.cPk (some Rlwe.cPt) (.rlweCt Rlwe.cCtL1)
      Rlwe.cSm) = true :=
  ⟨rfl, rfl, rfl⟩

/-- C1 (amended): the auxiliary-modulus public-key path performs, in order:
the uniform mask draw of `Encrypt`, the ternary draw of `u`, its lift into
Q∪P, the NTT and Montgomery transforms, the two public-key multiplications,
the two inverse NTTs, then — still in the extended ring — two independent
Gaussian draws added onto the two components, and only after that the two
mod-downs by P (which rescale the noise as well), followed by the plaintext
addition in the domain required by the target's flag. -/
theorem c1_amended_noise_before_moddown :
    ∀ (n : Nat) (qs : List Int) (p0 : Int) (prest : List Int) (lb dd : Nat)
      (pk : Rlwe.PublicKey) (p : Rlwe.Plaintext) (ct : Rlwe.Ciphertext) (sm : Rlwe.PkSamples),
      Rlwe.traceOfPk (Rlwe.pkEncrypt ⟨n, qs, p0 :: prest, lb, dd⟩ pk (some p)
          (.rlweCt ct) sm)
        = .sampleUniform :: Rlwe.pkTraceSteps
            ++ Rlwe.pkTraceTail ct.c0.isNTT p.value.isNTT := by
  intro n qs p0 prest lb dd pk p ct sm
  obtain ⟨⟨c0co, c0ct, c0n, c0d⟩, ⟨c1co, c1ct, c1n, c1d⟩⟩ := ct
  obtain ⟨⟨pco, pct, pn, pd⟩⟩ := p
  cases c0n <;> cases pn <;> rfl

/-- C1 counterexample: the claim puts the mod-down by P before the noise
addition; the trace of a concrete run of the auxiliary-modulus public-key
path shows both Gaussian noise additions happening before the first mod-down,
refuting the claimed order. -/
theorem c1_claimed_order_counterexample :
    Rlwe.traceOfPk (Rlwe.pkEncrypt Rlwe.cParamsP Rlwe.cPk (some Rlwe.cPt)
        (.rlweCt Rlwe.cCt) Rlwe.cSm)
      = [.sampleUniform, .sampleTernary, .extendBasis, .nttOp, .mformOp, .mulPk, .mulPk,
         .invNttOp, .invNttOp, .sampleGaussian, .extendBasis, .addNoise, .sampleGaussian,
         .extendBasis, .addNoise, .modDownP, .modDownP, .addPlain] ∧
    Rlwe.noNoiseBeforeModDown
      (Rlwe.traceOfPk (Rlwe.pkEncrypt Rlwe.cParamsP Rlwe.cPk (some Rlwe.cPt)
        (.rlweCt Rlwe.cCt) Rlwe.cSm)) = false :=
  ⟨rfl, rfl⟩

theorem truncR_coeff (lvl : Nat) (a : Rlwe.RPoly) : (Rlwe.truncR lvl a).coeff = a.coeff := rfl

theorem setFlag_coeff (b : Bool) (a : Rlwe.RPoly) : (Rlwe.setFlag b a).coeff = a.coeff := rfl

theorem nttLvlR_coeff (a : Rlwe.RPoly) : (Rlwe.nttLvlR a).coeff = a.coeff := rfl

theorem invNttLvlR_coeff (a : Rlwe.RPoly) : (Rlwe.invNttLvlR a).coeff = a.coeff := rfl

theorem addLvlR_coeff (qs : List Int) (lvl : Nat) (a b : Rlwe.RPoly) (i : Nat) :
    (Rlwe.addLvlR qs lvl a b).coeff i
      = if i ≤ lvl then Rlwe.addCoeffs (qs.getD i 1) (a.coeff i) (b.coeff i)
        else a.coeff i := rfl

theorem negLvlR_coeff (qs : List Int) (lvl : Nat) (a : Rlwe.RPoly) (i : Nat) :
    (Rlwe.negLvlR qs lvl a).coeff i
      = if i ≤ lvl then Rlwe.negCoeffs (qs.getD i 1) (a.coeff i) else a.coeff i := rfl

theorem mulMontLvlR_coeff (qs : List Int) (n lvl : Nat) (a b dst : Rlwe.RPoly) (i : Nat) :
    (Rlwe.mulMontLvlR qs n lvl a b dst).coeff i
      = if i ≤ lvl then Rlwe.negacyclicMul (qs.getD i 1) n (a.coeff i) (b.coeff i)
        else dst.coeff i := rfl

theorem gaussReadLvl_coeff (qs : List Int) (lvl : Nat) (raw : List Int) (dst : Rlwe.RPoly)
    (i : Nat) :
    (Rlwe.gaussReadLvl qs lvl raw dst).coeff i
      = if i ≤ lvl then Rlwe.redCoeffs (qs.getD i 1) raw else dst.coeff i := rfl

theorem gaussReadAddLvl_coeff (qs : List Int) (lvl : Nat) (raw : List Int) (dst : Rlwe.RPoly)
    (i : Nat) :
    (Rlwe.gaussReadAddLvl qs lvl raw dst).coeff i
      = if i ≤ lvl then
          Rlwe.addCoeffs (qs.getD i 1) (dst.coeff i) (Rlwe.redCoeffs (qs.getD i 1) raw)
        else dst.coeff i := rfl

theorem uniformReadLvl_coeff (qs : List Int) (lvl : Nat) (raw : Nat → List Int)
    (dst : Rlwe.RPoly) (i : Nat) :
    (Rlwe.uniformReadLvl qs lvl raw dst).coeff i
      = if i ≤ lvl then Rlwe.redCoeffs (qs.getD i 1) (raw i) else dst.coeff i := rfl

theorem mapRangeCongr {α : Type} (k : Nat) (f g : Nat → α) (h : ∀ i, i < k → f i = g i) :
    (List.range k).map f = (List.range k).map g := by
  induction k with
  | zero => rfl
  | succ m ih =>
    rw [List.range_succ, List.map_append, List.map_append,
      ih (fun i hi => h i (Nat.lt_succ_of_lt hi))]
    simp [h m (Nat.lt_succ_self m)]

theorem limbsListEq (a : Rlwe.RPoly) (k : Nat) (g : Nat → List Int)
    (hc : a.count = k) (h : ∀ i, i < k → a.coeff i = g i) :
    a.limbsList = (List.range k).map g := by
  unfold Rlwe.RPoly.limbsList
  rw [hc]
  exact mapRangeCongr k a.coeff g h

/-- C2: for the secret-key `Encrypt` on an RLWE target, the mask component is
the uniform sampler's draw over Q at the operating level (the minimum of the
plaintext's and the ciphertext's levels), and the body component equals
`−mask·secret + Gaussian noise + plaintext`, limb by limb, in every
domain-flag combination. -/
theorem c2_sk_encrypt_shape :
    ∀ (pr : Rlwe.Params) (sk : Rlwe.SecretKey) (p : Rlwe.Plaintext) (ct : Rlwe.Ciphertext)
      (sm : Rlwe.SkSamples),
      (Rlwe.ctOfSk (Rlwe.skEncrypt pr sk (some p) (.rlweCt ct) sm)).c1.limbsList
          = (List.range (min p.level ct.level + 1)).map (Rlwe.specMaskLimb pr.qs sm.mask) ∧
      (Rlwe.ctOfSk (Rlwe.skEncrypt pr sk (some p) (.rlweCt ct) sm)).c0.limbsList
          = (List.range (min p.level ct.level + 1)).map
              (Rlwe.specBodyLimb pr sk p sm.mask (sm.gauss 0)) := by
  intro pr sk p ct sm
  obtain ⟨⟨c0co, c0ct, c0n, c0d⟩, ⟨c1co, c1ct, c1n, c1d⟩⟩ := ct
  obtain ⟨⟨pco, pct, pn, pd⟩⟩ := p
  cases c0n <;> cases pn <;>
    (simp only [Rlwe.skEncrypt, Rlwe.skEncryptRLWE, Rlwe.skEncryptRLWECore, Except.map,
       Rlwe.ctOfSk]
     refine ⟨limbsListEq _ _ _ rfl ?_, limbsListEq _ _ _ rfl ?_⟩ <;>
       (intro i hi
        simp only [Rlwe.Plaintext.level, Rlwe.Ciphertext.level] at hi ⊢
        have hle : i ≤ min (pct - 1) (c0ct - 1) := Nat.le_of_lt_succ hi
        have hct : i ≤ c0ct - 1 := le_trans hle (Nat.min_le_right _ _)
        simp [truncR_coeff, setFlag_coeff, nttLvlR_coeff, invNttLvlR_coeff, addLvlR_coeff,
          negLvlR_coeff, mulMontLvlR_coeff, gaussReadLvl_coeff, gaussReadAddLvl_coeff,
          uniformReadLvl_coeff, Rlwe.specBodyLimb, Rlwe.specMaskLimb, hle, hct])) <;>
    first
      | rfl
      | rw [← addCoeffsAssoc]
      | rw [addCoeffsRightComm]
